import Mathlib

/-!
Shallow embedding of `src/lib/utils/git-repo.ts` (class `GitRepo`): a typed
facade over the `git` command-line tool.  The pure command-construction logic
(`withOptions`, the message preprocessing of `commit`, the overload resolution
of `push`/`fetch`, the output transformation of `getRemoteBranches`) is
translated directly; the external tool, the process-global working directory
and the logger side channel are modelled explicitly:

* `World` is an oracle giving, for every composed command string, what
  `sh.exec` does (return a captured result, or raise);
* `ProcState` is the process-global working-directory state manipulated by
  `sh.pushd` / `sh.popd`;
* every operation returns an `OpResult`: the value or thrown error, the final
  `ProcState`, and the ordered trace of tool invocations.

JavaScript string primitives used by the source (`trim`, `split`,
`startsWith`, anchored-prefix `replace`, `join`) are implemented on `List
Char` so that they both evaluate on concrete inputs and admit inductive
proofs.  They are restricted to the ASCII whitespace characters that actually
occur here.
-/

/-- Whitespace test used by the JS `String.prototype.trim` model (the source
only ever meets ASCII whitespace: space, tab, carriage return, newline). -/
def isJsWs (c : Char) : Bool := c.isWhitespace

/-- Characters of a string with leading and trailing whitespace removed:
drop from the front, reverse, drop again, reverse back. -/
def trimChars (l : List Char) : List Char :=
  ((l.dropWhile isJsWs).reverse.dropWhile isJsWs).reverse

/-- JS `s.trim()`. -/
def strTrim (s : String) : String := (trimChars s.toList).asString

/-- JS `s.startsWith(pre)`. -/
def strStartsWith (s pre : String) : Bool := pre.toList.isPrefixOf s.toList

/-- Split on the regular expression `/\r?\n/` (used by `commit` on the
message): a `\r\n` pair or a lone `\n` is a separator; a lone `\r` is not. -/
def splitLinesChars : List Char → List (List Char)
  | [] => [[]]
  | '\r' :: '\n' :: rest => [] :: splitLinesChars rest
  | '\n' :: rest => [] :: splitLinesChars rest
  | c :: rest =>
    match splitLinesChars rest with
    | [] => [[c]]
    | l :: ls => (c :: l) :: ls

/-- JS `stdout.split('\n')` (used by `execInRepo` logging and
`getRemoteBranches`): split on every literal newline, keeping empty pieces. -/
def splitOnNl : List Char → List (List Char)
  | [] => [[]]
  | '\n' :: rest => [] :: splitOnNl rest
  | c :: rest =>
    match splitOnNl rest with
    | [] => [[c]]
    | l :: ls => (c :: l) :: ls

/-- Fueled splitter on a character sequence (JS `String.prototype.split` with
a nonempty string separator, scanning left to right without overlap).  The
fuel bounds the recursion; `splitOnSeq` supplies the input length, which
always suffices because each step consumes at least one character. -/
def splitOnSeqFuel (sep : List Char) : Nat → List Char → List (List Char)
  | _, [] => [[]]
  | 0, l => [l]
  | Nat.succ fuel, c :: rest =>
    if !sep.isEmpty && sep.isPrefixOf (c :: rest) then
      [] :: splitOnSeqFuel sep fuel ((c :: rest).drop sep.length)
    else
      match splitOnSeqFuel sep fuel rest with
      | [] => [[c]]
      | l :: ls => (c :: l) :: ls

/-- Split a character list on every occurrence of a nonempty separator
sequence (for an empty separator it returns the input whole, which never
happens here). -/
def splitOnSeq (sep l : List Char) : List (List Char) :=
  splitOnSeqFuel sep l.length l

/-- A value in an `ICommnandOptions` object:
`boolean | string | string[] | undefined`. -/
inductive OptValue where
  | bool (b : Bool)
  | str (s : String)
  | strs (l : List String)
  | undef
deriving DecidableEq

/-- The options object `ICommnandOptions`: the named flags in
object-iteration (insertion) order, plus the reserved trailing-arguments key
(typed `string[]`), already destructured the way the source does — the
reserved key into `cmdArgs`, the remaining entries into `cmdOpts`. -/
structure ICommnandOptions where
  cmdOpts : List (String × OptValue)
  cmdArgs : Option (List String)
deriving DecidableEq

/-- The filter from `withOptions`: an entry survives when its value is
neither `undefined` nor `false`
(`(entry[1] !== undefined) && (entry[1] !== false)`). -/
def keepEntry : String × OptValue → Bool
  | (_, .undef) => false
  | (_, .bool false) => false
  | _ => true

/-- `normalizeValue`: `true` becomes one empty-string occurrence (a bare
flag), a single string a one-element list, a list itself.  `false` and
`undefined` never reach it (entries are filtered first); for completeness
they map to their JS string coercions. -/
def normalizeValue : OptValue → List String
  | .bool true => [""]
  | .bool false => ["false"]
  | .str s => [s]
  | .strs l => l
  | .undef => ["undefined"]

/-- `GitRepo.withOptions(cmd, opts)`: append the rendering of an options
object to a base command.  Kept entries render once per normalized value, in
order, as `name value` trimmed (so a bare flag has no trailing space);
one-character flag names get `-`, longer ones `--`; the trailing-arguments
key renders last after a literal `--`, its values space-joined. -/
def withOptions (cmd : String) (opts : Option ICommnandOptions) : String :=
  let o := opts.getD ⟨[], none⟩
  let normalizedCmdArgs := o.cmdArgs
  let normalizedCmdOpts :=
    (o.cmdOpts.filter keepEntry).map fun e =>
      ((if e.1.length == 1 then "-" ++ e.1 else "--" ++ e.1), normalizeValue e.2)
  let cmd1 :=
    if normalizedCmdOpts.length > 0 then
      cmd ++ " " ++ String.intercalate " "
        (normalizedCmdOpts.map fun p =>
          String.intercalate " " (p.2.map fun v => strTrim (p.1 ++ " " ++ v)))
    else cmd
  match normalizedCmdArgs with
  | some args => cmd1 ++ " -- " ++ String.intercalate " " args
  | none => cmd1

/-- JS object spread update `{...opts, key: v}`: an existing key keeps its
position and gets the new value, a fresh key is appended last. -/
def setKey (l : List (String × OptValue)) (k : String) (v : OptValue) :
    List (String × OptValue) :=
  if l.any (fun e => e.1 == k) then
    l.map fun e => if e.1 == k then (k, v) else e
  else l ++ [(k, v)]

/-- Captured result of one tool invocation (shelljs `ExecOutputReturnValue`). -/
structure ExecOutput where
  code : Int
  stdout : String
  stderr : String
deriving DecidableEq

/-- What the external tool does for one composed command: return a captured
result (possibly with a non-zero `code`), or the invocation step raises. -/
inductive ToolBehavior where
  | returns (out : ExecOutput)
  | throws (msg : String)
deriving DecidableEq

/-- The external world: the behavior of `sh.exec` on each composed command. -/
def World : Type := String → ToolBehavior

/-- Process-global working-directory state manipulated by `sh.pushd` /
`sh.popd`: the current directory and the stack of saved directories. -/
structure ProcState where
  cwd : String
  dirStack : List String
deriving DecidableEq

/-- One record of the execution trace: the composed command, the working
directory it ran in, and the extra environment variables supplied for it. -/
structure ExecEntry where
  cmd : String
  cwd : String
  env : Option (List (String × String))
deriving DecidableEq

/-- The mutable session state of a `GitRepo` instance: its directory and the
`destroyed` guard flag. -/
structure GitRepo where
  directory : String
  destroyed : Bool
deriving DecidableEq

/-- Outcome of one facade operation: the returned value or thrown error, the
final working-directory state, and the ordered trace of tool invocations. -/
structure OpResult (α : Type) where
  res : Except String α
  ps : ProcState
  trace : List ExecEntry

namespace GitRepo

/-- `GitRepo.execInRepo(partialCmd, cmdOpts, envVars)`: throw synchronously
when the session is destroyed; otherwise `pushd` into the repository
directory, compose `withOptions(partialCmd.trim(), cmdOpts)`, invoke the
tool, and `popd` in the `finally` block on every exit path (normal return,
non-zero exit, or a raise from the invocation step). -/
def execInRepo (repo : GitRepo) (w : World) (ps : ProcState)
    (partialCmd : String) (cmdOpts : Option ICommnandOptions)
    (envVars : Option (List (String × String))) : OpResult ExecOutput :=
  if repo.destroyed then
    ⟨.error "Repository already destroyed.", ps, []⟩
  else
    let pushed : ProcState := ⟨repo.directory, ps.cwd :: ps.dirStack⟩
    let cmd := withOptions (strTrim partialCmd) cmdOpts
    let res : Except String ExecOutput :=
      match w cmd with
      | .returns out => .ok out
      | .throws msg => .error msg
    let popped : ProcState :=
      match pushed.dirStack with
      | saved :: rest => ⟨saved, rest⟩
      | [] => pushed
    ⟨res, popped, [⟨cmd, pushed.cwd, envVars⟩]⟩

/-- `get currentBranch()`: run `git rev-parse --abbrev-ref HEAD` and trim the
captured stdout. -/
def currentBranch (repo : GitRepo) (w : World) (ps : ProcState) :
    OpResult String :=
  let r := execInRepo repo w ps "git rev-parse --abbrev-ref HEAD" none none
  match r.res with
  | .ok out => ⟨.ok (strTrim out.stdout), r.ps, r.trace⟩
  | .error e => ⟨.error e, r.ps, r.trace⟩

/-- `GitRepo.addRemote(name, url)`: best-effort removal of an existing
remote, then add it fresh. -/
def addRemote (repo : GitRepo) (w : World) (ps : ProcState)
    (name url : String) : OpResult Unit :=
  let r1 := execInRepo repo w ps ("git remote remove " ++ name ++ " || true")
      none none
  match r1.res with
  | .error e => ⟨.error e, r1.ps, r1.trace⟩
  | .ok _ =>
    let r2 := execInRepo repo w r1.ps ("git remote add " ++ name ++ " " ++ url)
        none none
    ⟨r2.res.map fun _ => (), r2.ps, r1.trace ++ r2.trace⟩

/-- `GitRepo.checkout(ref, opts)`. -/
def checkout (repo : GitRepo) (w : World) (ps : ProcState) (ref : String)
    (opts : Option ICommnandOptions) : OpResult Unit :=
  let r := execInRepo repo w ps ("git checkout " ++ ref) opts none
  ⟨r.res.map fun _ => (), r.ps, r.trace⟩

/-- `GitRepo.config(key, value)`. -/
def config (repo : GitRepo) (w : World) (ps : ProcState)
    (key value : String) : OpResult Unit :=
  let r := execInRepo repo w ps ("git config " ++ key ++ " " ++ value) none none
  ⟨r.res.map fun _ => (), r.ps, r.trace⟩

/-- `GitRepo.init(opts)`. -/
def init (repo : GitRepo) (w : World) (ps : ProcState)
    (opts : Option ICommnandOptions) : OpResult Unit :=
  let r := execInRepo repo w ps "git init" opts none
  ⟨r.res.map fun _ => (), r.ps, r.trace⟩

/-- `GitRepo.stage(files, opts)`: run `git add` with
`git add` with the options spread plus the files under the reserved trailing key. -/
def stage (repo : GitRepo) (w : World) (ps : ProcState)
    (files : List String) (opts : Option ICommnandOptions) : OpResult Unit :=
  let o := opts.getD ⟨[], none⟩
  let r := execInRepo repo w ps "git add" (some ⟨o.cmdOpts, some files⟩) none
  ⟨r.res.map fun _ => (), r.ps, r.trace⟩

/-- `GitRepo.destroy()`: remove the directory and set the flag, unless
already destroyed.  Returns the new session state and whether `sh.rm` ran. -/
def destroy (repo : GitRepo) : GitRepo × Bool :=
  if !repo.destroyed then (⟨repo.directory, true⟩, true) else (repo, false)

end GitRepo

/-- The runtime call shapes of the overloaded `fetch`: the second positional
argument is either absent / a non-string (the options object), or a branch
name. -/
inductive FetchArgs where
  | remoteOnly (opts : Option ICommnandOptions)
  | withBranch (branch : String) (opts : Option ICommnandOptions)

/-- The runtime call shapes of the overloaded `push`. -/
inductive PushArgs where
  | remoteOnly (opts : Option ICommnandOptions)
  | withRemoteBranch (remoteBranch : String) (opts : Option ICommnandOptions)
  | full (localBranch remoteBranch : String) (opts : Option ICommnandOptions)

namespace GitRepo

/-- `GitRepo.fetch`: when the second positional argument is not a string it
becomes the options object and the branch defaults to the empty string; then
run `git fetch ${remote} ${branch}`. -/
def fetch (repo : GitRepo) (w : World) (ps : ProcState) (remote : String) :
    FetchArgs → OpResult Unit
  | .remoteOnly opts =>
    let r := execInRepo repo w ps ("git fetch " ++ remote ++ " " ++ "") opts none
    ⟨r.res.map fun _ => (), r.ps, r.trace⟩
  | .withBranch branch opts =>
    let r := execInRepo repo w ps ("git fetch " ++ remote ++ " " ++ branch)
        opts none
    ⟨r.res.map fun _ => (), r.ps, r.trace⟩

/-- `GitRepo.push`: overload resolution by runtime argument type.  With no
string branch arguments both branches fall back to the current branch; with
one, it is the remote branch and the local branch falls back to the current
branch; the final form always runs
`git push ${remote} ${localBranch}:${remoteBranch}`. -/
def push (repo : GitRepo) (w : World) (ps : ProcState) (remote : String) :
    PushArgs → OpResult Unit
  | .remoteOnly opts =>
    match currentBranch repo w ps with
    | ⟨.ok cb, ps1, tr1⟩ =>
      let r := execInRepo repo w ps1
          ("git push " ++ remote ++ " " ++ cb ++ ":" ++ cb) opts none
      ⟨r.res.map fun _ => (), r.ps, tr1 ++ r.trace⟩
    | ⟨.error e, ps1, tr1⟩ => ⟨.error e, ps1, tr1⟩
  | .withRemoteBranch rb opts =>
    match currentBranch repo w ps with
    | ⟨.ok cb, ps1, tr1⟩ =>
      let r := execInRepo repo w ps1
          ("git push " ++ remote ++ " " ++ cb ++ ":" ++ rb) opts none
      ⟨r.res.map fun _ => (), r.ps, tr1 ++ r.trace⟩
    | ⟨.error e, ps1, tr1⟩ => ⟨.error e, ps1, tr1⟩
  | .full lb rb opts =>
    let r := execInRepo repo w ps
        ("git push " ++ remote ++ " " ++ lb ++ ":" ++ rb) opts none
    ⟨r.res.map fun _ => (), r.ps, r.trace⟩

/-- `GitRepo.deleteRemoteBranch(remote, branch, opts)`: delegates to
`this.push(remote, "", branch)`; the `opts` parameter is accepted but not
forwarded. -/
def deleteRemoteBranch (repo : GitRepo) (w : World) (ps : ProcState)
    (remote branch : String) (opts : Option ICommnandOptions) : OpResult Unit :=
  push repo w ps remote (.full "" branch none)

/-- `line.replace(new RegExp(remote + "/"), "")` with the caret anchor, for a
remote name without regex metacharacters: drop the prefix when present. -/
def stripLeadingRemote (remote line : String) : String :=
  if strStartsWith line (remote ++ "/") then
    (line.toList.drop (remote ++ "/").toList.length).asString
  else line

/-- `GitRepo.getRemoteBranches(remote)`: shallow no-tags fetch, list remote
branches, then trim each stdout line, keep only lines prefixed with
`remote/`, and strip that prefix, preserving line order. -/
def getRemoteBranches (repo : GitRepo) (w : World) (ps : ProcState)
    (remote : String) : OpResult (List String) :=
  let r1 := fetch repo w ps remote
      (.remoteOnly (some ⟨[("depth", .str "1"), ("no-tags", .bool true)], none⟩))
  match r1.res with
  | .error e => ⟨.error e, r1.ps, r1.trace⟩
  | .ok _ =>
    let r2 := execInRepo repo w r1.ps "git branch"
        (some ⟨[("remote", .bool true)], none⟩) none
    match r2.res with
    | .error e => ⟨.error e, r2.ps, r1.trace ++ r2.trace⟩
    | .ok out =>
      let branches :=
        ((((splitOnNl out.stdout.toList).map fun l => l.asString).map
            strTrim).filter fun line => strStartsWith line (remote ++ "/")).map
          fun line => stripLeadingRemote remote line
      ⟨.ok branches, r2.ps, r1.trace ++ r2.trace⟩

end GitRepo

/-- Modelled from the spec: the placeholder token `NEWLINE_PLACEHOLDER`
imported from the constants module, which is not part of the given sources.
The spec only says literal newlines are replaced by "the placeholder token";
this concrete value is a stand-in chosen not to occur in ordinary commit
messages. -/
def NEWLINE_PLACEHOLDER : String := "<<<COMMIT-MSG-NEWLINE>>>"

/-- The resolved path of the `fix-commit-message-newlines` script
(`require.resolve(...)` with backslashes normalized).  Its concrete value is
environment-dependent and irrelevant to every property proved here. -/
def FIX_COMMIT_MESSAGE_NEWLINES_SCRIPT_PATH : String :=
  "fix-commit-message-newlines"

/-- The preprocessed message argument built by `GitRepo.commit`:
a double quote, then `msg.trim().split(/\r?\n/).join(NEWLINE_PLACEHOLDER)`, then a closing double quote. -/
def tempMsgArg (msg : String) : String :=
  "\"" ++
    String.intercalate NEWLINE_PLACEHOLDER
      ((splitLinesChars (strTrim msg).toList).map fun l => l.asString) ++
    "\""

/-- Modelled from the spec: the external message-filter step restores real
newlines from the placeholder in the stored commit message (the
`fix-commit-message-newlines` script is not part of the given sources). -/
def fixCommitMessageNewlines (s : String) : String :=
  String.intercalate "\n"
    ((splitOnSeq NEWLINE_PLACEHOLDER.toList s.toList).map fun l => l.asString)

/-- Modelled from the spec: shell parsing of the double-quoted `--message`
argument stores its contents, i.e. the argument without the surrounding
quotes (faithful for messages without embedded quote characters). -/
def unquoteArg (s : String) : String :=
  ((s.toList.drop 1).dropLast).asString

/-- Modelled from the spec: the commit message finally stored for input
`msg` — the quoted preprocessed argument as stored by `git commit`, then
rewritten by the message filter of the follow-up `filter-branch` step. -/
def storedCommitMessage (msg : String) : String :=
  fixCommitMessageNewlines (unquoteArg (tempMsgArg msg))

namespace GitRepo

/-- `GitRepo.commit(msg, opts)`: preprocess the message (trim, replace
literal newlines by the placeholder, wrap in double quotes), run
`git commit` with `{...opts, message: tempMsgArg}`, then run the
`filter-branch` message rewrite over `@~1..@` with
`FILTER_BRANCH_SQUELCH_WARNING=1`. -/
def commit (repo : GitRepo) (w : World) (ps : ProcState) (msg : String)
    (opts : Option ICommnandOptions) : OpResult Unit :=
  let o := opts.getD ⟨[], none⟩
  let r1 := execInRepo repo w ps "git commit"
      (some ⟨setKey o.cmdOpts "message" (.str (tempMsgArg msg)), o.cmdArgs⟩) none
  match r1.res with
  | .error e => ⟨.error e, r1.ps, r1.trace⟩
  | .ok _ =>
    let r2 := execInRepo repo w r1.ps
        ("git filter-branch --msg-filter \"node " ++
          FIX_COMMIT_MESSAGE_NEWLINES_SCRIPT_PATH ++ "\" @~1..@") none
        (some [("FILTER_BRANCH_SQUELCH_WARNING", "1")])
    ⟨r2.res.map fun _ => (), r2.ps, r1.trace ++ r2.trace⟩

end GitRepo

/-- A live (not destroyed) test session. -/
def testRepo : GitRepo := ⟨"/repo", false⟩

/-- A destroyed test session. -/
def deadRepo : GitRepo := ⟨"/repo", true⟩

/-- A test process state. -/
def testPs : ProcState := ⟨"/home", []⟩

/-- A test world whose HEAD query reports branch `main` and which returns an
empty success for everything else. -/
def mainWorld : World := fun c =>
  if c == "git rev-parse --abbrev-ref HEAD" then .returns ⟨0, "main\n", ""⟩
  else .returns ⟨0, "", ""⟩

/-- A test world for the branch-listing example of the spec. -/
def branchWorld : World := fun c =>
  if c == "git branch --remote" then
    .returns ⟨0, "  origin/main\n  origin/dev\n  upstream/main", ""⟩
  else .returns ⟨0, "", ""⟩

/-- A test world that returns an empty success for every command. -/
def okWorld : World := fun _ => .returns ⟨0, "", ""⟩

/-! ## Helper lemmas -/

theorem withOptions_none (cmd : String) : withOptions cmd none = cmd := rfl

theorem strTrim_head_cmd :
    strTrim "git rev-parse --abbrev-ref HEAD" = "git rev-parse --abbrev-ref HEAD" := by
  decide

theorem trimChars_cons_of_ws (c : Char) (l : List Char) (h : isJsWs c = true) :
    trimChars (c :: l) = trimChars l := by
  simp [trimChars, List.dropWhile_cons, h]

theorem trimChars_concat_of_ws (l : List Char) (c : Char) (h : isJsWs c = true) :
    trimChars (l ++ [c]) = trimChars l := by
  unfold trimChars
  rw [List.dropWhile_append]
  by_cases h0 : List.dropWhile isJsWs l = []
  · simp [h0, List.dropWhile_cons, h]
  · simp [h0, List.reverse_append, List.dropWhile_cons, h]

theorem strTrim_ws_wrap (msg : String) :
    strTrim (" " ++ msg ++ "\n") = strTrim msg := by
  unfold strTrim
  have hdata : (" " ++ msg ++ "\n").toList = ' ' :: (msg.toList ++ ['\n']) := by
    simp [String.toList, String.data_append]
  rw [hdata, trimChars_cons_of_ws _ _ (by decide), trimChars_concat_of_ws _ _ (by decide)]

theorem execInRepo_ps_eq (repo : GitRepo) (w : World) (ps : ProcState)
    (pc : String) (o : Option ICommnandOptions)
    (e : Option (List (String × String))) :
    (GitRepo.execInRepo repo w ps pc o e).ps = ps := by
  by_cases hd : repo.destroyed <;> simp [GitRepo.execInRepo, hd]

theorem execInRepo_not_destroyed (repo : GitRepo) (w : World) (ps : ProcState)
    (pc : String) (o : Option ICommnandOptions)
    (e : Option (List (String × String))) (hd : repo.destroyed = false) :
    GitRepo.execInRepo repo w ps pc o e =
      ⟨match w (withOptions (strTrim pc) o) with
        | .returns out => .ok out
        | .throws msg => .error msg,
       ps, [⟨withOptions (strTrim pc) o, repo.directory, e⟩]⟩ := by
  simp [GitRepo.execInRepo, hd]

theorem execInRepo_destroyed (repo : GitRepo) (w : World) (ps : ProcState)
    (pc : String) (o : Option ICommnandOptions)
    (e : Option (List (String × String))) (hd : repo.destroyed = true) :
    GitRepo.execInRepo repo w ps pc o e =
      ⟨.error "Repository already destroyed.", ps, []⟩ := by
  simp [GitRepo.execInRepo, hd]

theorem currentBranch_ps_eq (repo : GitRepo) (w : World) (ps : ProcState) :
    (GitRepo.currentBranch repo w ps).ps = ps := by
  have h := execInRepo_ps_eq repo w ps "git rev-parse --abbrev-ref HEAD" none none
  unfold GitRepo.currentBranch
  cases hres : (GitRepo.execInRepo repo w ps "git rev-parse --abbrev-ref HEAD" none none).res <;>
    simp [hres, h]

theorem currentBranch_spec (repo : GitRepo) (w : World) (ps : ProcState)
    (out : ExecOutput) (hd : repo.destroyed = false)
    (hw : w "git rev-parse --abbrev-ref HEAD" = .returns out) :
    GitRepo.currentBranch repo w ps =
      ⟨.ok (strTrim out.stdout), ps,
       [⟨"git rev-parse --abbrev-ref HEAD", repo.directory, none⟩]⟩ := by
  unfold GitRepo.currentBranch
  rw [execInRepo_not_destroyed repo w ps _ _ _ hd, withOptions_none, strTrim_head_cmd, hw]

theorem fetch_ps_eq (repo : GitRepo) (w : World) (ps : ProcState)
    (remote : String) (args : FetchArgs) :
    (GitRepo.fetch repo w ps remote args).ps = ps := by
  cases args <;> simp [GitRepo.fetch, execInRepo_ps_eq]

theorem push_ps_eq (repo : GitRepo) (w : World) (ps : ProcState)
    (remote : String) (args : PushArgs) :
    (GitRepo.push repo w ps remote args).ps = ps := by
  have hcb := currentBranch_ps_eq repo w ps
  cases args with
  | remoteOnly opts =>
    rcases hc : GitRepo.currentBranch repo w ps with ⟨res, ps1, tr1⟩
    rw [hc] at hcb
    simp only at hcb
    cases res <;> simp [GitRepo.push, hc, execInRepo_ps_eq, hcb]
  | withRemoteBranch rb opts =>
    rcases hc : GitRepo.currentBranch repo w ps with ⟨res, ps1, tr1⟩
    rw [hc] at hcb
    simp only at hcb
    cases res <;> simp [GitRepo.push, hc, execInRepo_ps_eq, hcb]
  | full lb rb opts => simp [GitRepo.push, execInRepo_ps_eq]

theorem commit_ps_eq (repo : GitRepo) (w : World) (ps : ProcState)
    (msg : String) (opts : Option ICommnandOptions) :
    (GitRepo.commit repo w ps msg opts).ps = ps := by
  simp only [GitRepo.commit]
  split <;> simp_all [execInRepo_ps_eq]

theorem getRemoteBranches_ps_eq (repo : GitRepo) (w : World) (ps : ProcState)
    (remote : String) :
    (GitRepo.getRemoteBranches repo w ps remote).ps = ps := by
  simp only [GitRepo.getRemoteBranches]
  split
  · simp [fetch_ps_eq]
  · split <;> simp [fetch_ps_eq, execInRepo_ps_eq]

theorem currentBranch_destroyed (repo : GitRepo) (w : World) (ps : ProcState)
    (hd : repo.destroyed = true) :
    GitRepo.currentBranch repo w ps =
      ⟨.error "Repository already destroyed.", ps, []⟩ := by
  unfold GitRepo.currentBranch
  rw [execInRepo_destroyed repo w ps _ _ _ hd]

/-! ## Claim theorems -/

/-- Claim C8: every execution changes into the directory of the session and
restores the previous working directory on every exit path — on success, on
tool failure (non-zero exit), and when the invocation step raises (all three
covered by quantifying over the world `w`) — so a failed operation never
leaves the process in the wrong working directory; multi-step operations
(commit, push, getRemoteBranches) also restore it overall. -/
theorem c8_working_directory_restoration (repo : GitRepo) (w : World)
    (ps : ProcState) (partialCmd : String) (opts : Option ICommnandOptions)
    (env : Option (List (String × String))) :
    (GitRepo.execInRepo repo w ps partialCmd opts env).ps = ps ∧
    (repo.destroyed = false →
      (GitRepo.execInRepo repo w ps partialCmd opts env).trace =
        [⟨withOptions (strTrim partialCmd) opts, repo.directory, env⟩]) ∧
    (∀ msg mopts, (GitRepo.commit repo w ps msg mopts).ps = ps) ∧
    (∀ remote args, (GitRepo.push repo w ps remote args).ps = ps) ∧
    (∀ remote, (GitRepo.getRemoteBranches repo w ps remote).ps = ps) := by
  refine ⟨execInRepo_ps_eq repo w ps partialCmd opts env, ?_,
    fun msg mopts => commit_ps_eq repo w ps msg mopts,
    fun remote args => push_ps_eq repo w ps remote args,
    fun remote => getRemoteBranches_ps_eq repo w ps remote⟩
  intro hd
  rw [execInRepo_not_destroyed repo w ps partialCmd opts env hd]

/-- Witness for C8 at a concrete session, world and command. -/
theorem c8_working_directory_restoration_witness :
    (GitRepo.execInRepo testRepo mainWorld testPs "git status" none none).ps =
      testPs ∧
    (GitRepo.execInRepo testRepo mainWorld testPs "git status" none none).trace =
      [⟨"git status", "/repo", none⟩] := by
  have h := c8_working_directory_restoration testRepo mainWorld testPs
    "git status" none none
  exact ⟨h.1, h.2.1 rfl⟩

/-- Claim C3: after `destroy()` every subsequent operation on the session
raises the session-destroyed error synchronously with no execution attempted
(empty trace, process state untouched); a second `destroy()` is a no-op that
does not remove the directory again; and the destroyed flag only ever
transitions from `false` to `true`. -/
theorem c3_destroyed_session_guard (repo : GitRepo) (w : World)
    (ps : ProcState) (hd : repo.destroyed = true) :
    (∀ ref opts, GitRepo.checkout repo w ps ref opts =
      ⟨.error "Repository already destroyed.", ps, []⟩) ∧
    (∀ msg opts, GitRepo.commit repo w ps msg opts =
      ⟨.error "Repository already destroyed.", ps, []⟩) ∧
    (∀ remote args, GitRepo.fetch repo w ps remote args =
      ⟨.error "Repository already destroyed.", ps, []⟩) ∧
    (∀ remote args, GitRepo.push repo w ps remote args =
      ⟨.error "Repository already destroyed.", ps, []⟩) ∧
    (∀ files opts, GitRepo.stage repo w ps files opts =
      ⟨.error "Repository already destroyed.", ps, []⟩) ∧
    (∀ key value, GitRepo.config repo w ps key value =
      ⟨.error "Repository already destroyed.", ps, []⟩) ∧
    (∀ name url, GitRepo.addRemote repo w ps name url =
      ⟨.error "Repository already destroyed.", ps, []⟩) ∧
    (∀ remote, GitRepo.getRemoteBranches repo w ps remote =
      ⟨.error "Repository already destroyed.", ps, []⟩) ∧
    (∀ remote branch opts, GitRepo.deleteRemoteBranch repo w ps remote branch opts =
      ⟨.error "Repository already destroyed.", ps, []⟩) ∧
    (∀ opts, GitRepo.init repo w ps opts =
      ⟨.error "Repository already destroyed.", ps, []⟩) ∧
    GitRepo.currentBranch repo w ps =
      ⟨.error "Repository already destroyed.", ps, []⟩ ∧
    GitRepo.destroy repo = (repo, false) ∧
    (∀ r : GitRepo, (GitRepo.destroy r).1.destroyed = true) := by
  refine ⟨?_, ?_, ?_, ?_, ?_, ?_, ?_, ?_, ?_, ?_, ?_, ?_, ?_⟩
  · intro ref opts
    simp [GitRepo.checkout, execInRepo_destroyed repo w ps _ _ _ hd, Except.map]
  · intro msg opts
    simp [GitRepo.commit, execInRepo_destroyed repo w ps _ _ _ hd]
  · intro remote args
    cases args <;>
      simp [GitRepo.fetch, execInRepo_destroyed repo w ps _ _ _ hd, Except.map]
  · intro remote args
    cases args <;>
      simp [GitRepo.push, currentBranch_destroyed repo w ps hd,
        execInRepo_destroyed repo w ps _ _ _ hd, Except.map]
  · intro files opts
    simp [GitRepo.stage, execInRepo_destroyed repo w ps _ _ _ hd, Except.map]
  · intro key value
    simp [GitRepo.config, execInRepo_destroyed repo w ps _ _ _ hd, Except.map]
  · intro name url
    simp [GitRepo.addRemote, execInRepo_destroyed repo w ps _ _ _ hd, Except.map]
  · intro remote
    simp [GitRepo.getRemoteBranches, GitRepo.fetch,
      execInRepo_destroyed repo w ps _ _ _ hd, Except.map]
  · intro remote branch opts
    simp [GitRepo.deleteRemoteBranch, GitRepo.push,
      execInRepo_destroyed repo w ps _ _ _ hd, Except.map]
  · intro opts
    simp [GitRepo.init, execInRepo_destroyed repo w ps _ _ _ hd, Except.map]
  · exact currentBranch_destroyed repo w ps hd
  · simp [GitRepo.destroy, hd]
  · intro r
    by_cases h : r.destroyed <;> simp [GitRepo.destroy, h]

/-- Witness for C3 at a concrete destroyed session. -/
theorem c3_destroyed_session_guard_witness :
    GitRepo.checkout deadRepo mainWorld testPs "main" none =
      ⟨.error "Repository already destroyed.", testPs, []⟩ ∧
    GitRepo.destroy deadRepo = (deadRepo, false) := by
  have h := c3_destroyed_session_guard deadRepo mainWorld testPs rfl
  exact ⟨h.1 "main" none, h.2.2.2.2.2.2.2.2.2.2.2.1⟩

/-- Claim C1: push overload resolution — with no string branch arguments the
current branch of the session (the trimmed stdout of the HEAD query) is used for
both sides, with one string it is the remote branch and the local branch
falls back to the current branch, and the composed command is always
`git push remote localBranch:remoteBranch`.  Instantiated at current branch
`main`, the three shapes run `push origin main:main`, `push origin main:feat`
and `push origin local:remote` (see the witness). -/
theorem c1_push_overload_resolution (repo : GitRepo) (w : World)
    (ps : ProcState) (remote lb rb : String) (opts : Option ICommnandOptions)
    (out : ExecOutput) (hd : repo.destroyed = false)
    (hw : w "git rev-parse --abbrev-ref HEAD" = .returns out) :
    (GitRepo.push repo w ps remote (.remoteOnly opts)).trace.map ExecEntry.cmd =
      ["git rev-parse --abbrev-ref HEAD",
       withOptions (strTrim ("git push " ++ remote ++ " " ++ strTrim out.stdout ++
         ":" ++ strTrim out.stdout)) opts] ∧
    (GitRepo.push repo w ps remote (.withRemoteBranch rb opts)).trace.map
        ExecEntry.cmd =
      ["git rev-parse --abbrev-ref HEAD",
       withOptions (strTrim ("git push " ++ remote ++ " " ++ strTrim out.stdout ++
         ":" ++ rb)) opts] ∧
    (GitRepo.push repo w ps remote (.full lb rb opts)).trace.map ExecEntry.cmd =
      [withOptions (strTrim ("git push " ++ remote ++ " " ++ lb ++ ":" ++ rb))
        opts] := by
  refine ⟨?_, ?_, ?_⟩ <;>
    simp [GitRepo.push, currentBranch_spec repo w ps out hd hw,
      execInRepo_not_destroyed repo w _ _ _ _ hd]

/-- Witness for C1: current branch `main`, the three call shapes of the
claim. -/
theorem c1_push_overload_resolution_witness :
    (GitRepo.push testRepo mainWorld testPs "origin" (.remoteOnly none)).trace.map
        ExecEntry.cmd =
      ["git rev-parse --abbrev-ref HEAD", "git push origin main:main"] ∧
    (GitRepo.push testRepo mainWorld testPs "origin"
        (.withRemoteBranch "feat" none)).trace.map ExecEntry.cmd =
      ["git rev-parse --abbrev-ref HEAD", "git push origin main:feat"] ∧
    (GitRepo.push testRepo mainWorld testPs "origin"
        (.full "local" "remote" none)).trace.map ExecEntry.cmd =
      ["git push origin local:remote"] := by
  have h := c1_push_overload_resolution testRepo mainWorld testPs "origin"
    "local" "remote" none ⟨0, "main\n", ""⟩ rfl rfl
  exact ⟨h.1, (c1_push_overload_resolution testRepo mainWorld testPs "origin"
    "local" "feat" none ⟨0, "main\n", ""⟩ rfl rfl).2.1, h.2.2⟩

/-- Claim C2: `commit("line1\nline2")` replaces the literal newline with the
placeholder token in the first commit command, and the follow-up
message-rewrite step restores it, so the final stored commit message equals
the original input newline-for-newline. -/
theorem c2_commit_message_roundtrip :
    storedCommitMessage "line1\nline2" = "line1\nline2" ∧
    (GitRepo.commit testRepo okWorld testPs "line1\nline2" none).trace.map
        ExecEntry.cmd =
      ["git commit --message \"line1" ++ NEWLINE_PLACEHOLDER ++ "line2\"",
       "git filter-branch --msg-filter \"node " ++
         FIX_COMMIT_MESSAGE_NEWLINES_SCRIPT_PATH ++ "\" @~1..@"] :=
  ⟨rfl, rfl⟩

/-- Claim C4: a flag with value `false` or `undefined` never appears in the
rendering (dropping those entries leaves the rendered string unchanged); a
retained list-valued flag renders once per element in list order; `true`
renders as the bare flag; one-character names render as `-x`, longer names as
`--name`. -/
theorem c4_option_rendering :
    (∀ (cmd : String) (entries : List (String × OptValue))
       (args : Option (List String)),
      withOptions cmd (some ⟨entries, args⟩) =
        withOptions cmd (some ⟨entries.filter keepEntry, args⟩)) ∧
    withOptions "git cmd"
      (some ⟨[("verbose", .bool false), ("q", .undef),
              ("name", .strs ["a", "b"]), ("x", .bool true)], none⟩) =
      "git cmd --name a --name b -x" ∧
    withOptions "git cmd" (some ⟨[("x", .bool true)], none⟩) = "git cmd -x" ∧
    withOptions "git cmd" (some ⟨[("long", .bool true)], none⟩) =
      "git cmd --long" := by
  refine ⟨?_, by decide, by decide, by decide⟩
  intro cmd entries args
  simp [withOptions, List.filter_filter]

/-- Claim C5: the reserved `--` key renders after all flags, preceded by a
literal `--` separator, its values space-joined in order; `stage(files,
opts)` runs `git add` with the files rendered this way. -/
theorem c5_trailing_arguments_rendering :
    (∀ (cmd : String) (entries : List (String × OptValue))
       (files : List String),
      withOptions cmd (some ⟨entries, some files⟩) =
        withOptions cmd (some ⟨entries, none⟩) ++ " -- " ++
          String.intercalate " " files) ∧
    (GitRepo.stage testRepo okWorld testPs ["a.txt", "b.txt"]
        (some ⟨[("A", .bool true)], none⟩)).trace.map ExecEntry.cmd =
      ["git add -A -- a.txt b.txt"] ∧
    (GitRepo.stage testRepo okWorld testPs ["a.txt", "b.txt"] none).trace.map
        ExecEntry.cmd =
      ["git add -- a.txt b.txt"] :=
  ⟨fun _ _ _ => rfl, rfl, rfl⟩

/-- Claim C6: when the second positional argument of `fetch` is not a string
it is the options object and the branch defaults to the empty string, so the
two shapes coincide; `fetch("origin", {depth:"1"})` composes
`git fetch origin --depth 1` and never treats the object as a branch. -/
theorem c6_fetch_overload_resolution :
    (∀ (repo : GitRepo) (w : World) (ps : ProcState) (remote : String)
       (opts : Option ICommnandOptions),
      GitRepo.fetch repo w ps remote (.remoteOnly opts) =
        GitRepo.fetch repo w ps remote (.withBranch "" opts)) ∧
    (GitRepo.fetch testRepo okWorld testPs "origin"
        (.remoteOnly (some ⟨[("depth", .str "1")], none⟩))).trace.map
        ExecEntry.cmd =
      ["git fetch origin --depth 1"] :=
  ⟨fun _ _ _ _ _ => rfl, rfl⟩

/-- Claim C7: `getRemoteBranches("origin")` on branch-listing stdout lines
`"  origin/main"`, `"  origin/dev"`, `"  upstream/main"` returns
`["main", "dev"]`: lines trimmed, non-`origin/` lines dropped, the prefix
stripped, order preserved. -/
theorem c7_getRemoteBranches_transformation :
    (GitRepo.getRemoteBranches testRepo branchWorld testPs "origin").res =
      .ok ["main", "dev"] ∧
    (GitRepo.getRemoteBranches testRepo branchWorld testPs "origin").trace.map
        ExecEntry.cmd =
      ["git fetch origin --depth 1 --no-tags", "git branch --remote"] :=
  ⟨rfl, rfl⟩

/-- Claim C9: `deleteRemoteBranch` accepts an options object but never uses
it — every call is equal to the call without options, because it delegates to
`push(remote, "", branch)` without forwarding `opts`; the executed command is
`git push remote :branch`. -/
theorem c9_deleteRemoteBranch_ignores_opts :
    (∀ (repo : GitRepo) (w : World) (ps : ProcState) (remote branch : String)
       (opts opts2 : Option ICommnandOptions),
      GitRepo.deleteRemoteBranch repo w ps remote branch opts =
        GitRepo.deleteRemoteBranch repo w ps remote branch opts2) ∧
    (∀ (repo : GitRepo) (w : World) (ps : ProcState) (remote branch : String)
       (opts : Option ICommnandOptions),
      GitRepo.deleteRemoteBranch repo w ps remote branch opts =
        GitRepo.push repo w ps remote (.full "" branch none)) ∧
    (GitRepo.deleteRemoteBranch testRepo okWorld testPs "origin" "feat"
        (some ⟨[("force", .bool true)], none⟩)).trace.map ExecEntry.cmd =
      ["git push origin :feat"] :=
  ⟨fun _ _ _ _ _ _ _ => rfl, fun _ _ _ _ _ _ => rfl, rfl⟩

/-- Claim C10: `commit` trims the message before the placeholder
substitution, so leading and trailing whitespace (including newlines) is
dropped and absent from the stored message; the message argument is wrapped
in double quotes verbatim, without escaping embedded quotes. -/
theorem c10_commit_trims_and_quotes :
    (∀ msg : String, tempMsgArg (" " ++ msg ++ "\n") = tempMsgArg msg) ∧
    storedCommitMessage "\nhello \n" = "hello" ∧
    tempMsgArg "say \"hi\"" = "\"say \"hi\"\"" ∧
    (∀ msg : String,
      (GitRepo.commit testRepo okWorld testPs msg none).trace.map
          ExecEntry.cmd =
        ["git commit" ++ " " ++ strTrim ("--message" ++ " " ++ tempMsgArg msg),
         "git filter-branch --msg-filter \"node " ++
           FIX_COMMIT_MESSAGE_NEWLINES_SCRIPT_PATH ++ "\" @~1..@"]) ∧
    (GitRepo.commit testRepo okWorld testPs " hi\nthere " none).trace.map
        ExecEntry.cmd =
      ["git commit --message \"hi" ++ NEWLINE_PLACEHOLDER ++ "there\"",
       "git filter-branch --msg-filter \"node " ++
         FIX_COMMIT_MESSAGE_NEWLINES_SCRIPT_PATH ++ "\" @~1..@"] := by
  refine ⟨?_, rfl, rfl, fun msg => rfl, rfl⟩
  intro msg
  unfold tempMsgArg
  rw [strTrim_ws_wrap]

/-- Counterexample to claim C1 as frozen: with the current branch `main`,
`push("origin", "feat")` composes `git push origin main:feat` — the single
string argument is the remote branch and the local branch falls back to the
current branch — not the `git push origin feat:feat` the claim asserts. -/
theorem c1_push_overload_counterexample :
    (GitRepo.push testRepo mainWorld testPs "origin"
        (.withRemoteBranch "feat" none)).trace.map ExecEntry.cmd =
      ["git rev-parse --abbrev-ref HEAD", "git push origin main:feat"] ∧
    (GitRepo.push testRepo mainWorld testPs "origin"
        (.withRemoteBranch "feat" none)).trace.map ExecEntry.cmd ≠
      ["git rev-parse --abbrev-ref HEAD", "git push origin feat:feat"] :=
  ⟨rfl, by decide⟩
